import Mathlib

/-
Verification development for the requirement-management frontend
(components/TableView.js, components/GraphView.js, components/Dashboard.js,
hooks/useRequirements.js).

Strings are modelled as lists of characters (`Str`), so that every string
operation used by the code (split, trim, join, replace) is a structurally
recursive, kernel-computable Lean function mirroring the JavaScript one.
-/

set_option maxRecDepth 8000

namespace Rmt

/-- JavaScript strings are modelled as lists of characters. -/
abbrev Str := List Char

/-- Prepend a character to the first segment of a segment list. -/
def consHead (c : Char) : List (List Char) → List (List Char)
  | [] => [[c]]
  | r :: rs => (c :: r) :: rs

/-- JavaScript `s.split(sep)` for a single-character separator:
splitting the empty string yields `[[]]`, and separators at the ends
produce empty segments, exactly as in JS. -/
def chSplit (sep : Char) : Str → List Str
  | [] => [[]]
  | c :: cs =>
    if c = sep then [] :: chSplit sep cs else consHead c (chSplit sep cs)

/-- JavaScript `text.split(/\r?\n/)` from `handleImport`: a line break is
either a bare `\n` or the pair `\r\n`; a `\r` not followed by `\n` is an
ordinary character. -/
def chSplitLines : Str → List Str
  | [] => [[]]
  | c :: cs =>
    if c = '\n' then [] :: chSplitLines cs
    else if c = '\r' then
      match cs with
      | [] => [[c]]
      | d :: ds =>
        if d = '\n' then [] :: chSplitLines ds
        else consHead c (chSplitLines (d :: ds))
    else consHead c (chSplitLines cs)

/-- JavaScript `s.trimStart()`-style removal of leading whitespace. -/
def chTrimLeft : Str → Str
  | [] => []
  | c :: cs => if c.isWhitespace then chTrimLeft cs else c :: cs

/-- Removal of trailing whitespace. -/
def chTrimRight (l : Str) : Str := (chTrimLeft l.reverse).reverse

/-- JavaScript `s.trim()`: whitespace removed from both ends. -/
def chTrim (l : Str) : Str := chTrimRight (chTrimLeft l)

/-- JavaScript `str.replace(/"/g, '""')` from `escapeCsv` in
`TableView.handleExport`: every quote is doubled. -/
def escQuotes : Str → Str
  | [] => []
  | c :: cs => if c = '"' then '"' :: '"' :: escQuotes cs else c :: escQuotes cs

/-- The `escapeCsv` helper of `TableView.handleExport`: a value containing a
quote, a comma or a newline is wrapped in quotes with internal quotes
doubled; any other value is emitted verbatim. -/
def escapeCsv (v : Str) : Str :=
  if v.contains '"' || v.contains ',' || v.contains '\n' then
    '"' :: (escQuotes v ++ ['"'])
  else v

/-- Removal of one leading quote character, if present. -/
def stripLeadQuote : Str → Str
  | [] => []
  | c :: cs => if c = '"' then cs else c :: cs

/-- JavaScript `s.replace(/^"|"$/g, '')` from `TableView.handleImport`:
one leading and one trailing quote character are removed when present. -/
def stripEdgeQuotes (l : Str) : Str :=
  ((stripLeadQuote l).reverse |> stripLeadQuote).reverse

/-- JavaScript `a || b` on strings: the empty string is falsy. -/
def jsOr (a b : Str) : Str := if a = [] then b else a

/-- A requirement record as consumed by `TableView.handleExport`:
the fields serialized to CSV.  `chapter_id` is optional in the data model;
the other fields are plain strings and the id sets are lists of ids. -/
structure Requirement where
  id : Str
  req_id : Str
  title : Str
  text : Str
  status : Str
  verification_methods : List Str
  project_id : Str
  group_id : Str
  chapter_id : Option Str
  parent_ids : List Str
  child_ids : List Str
deriving DecidableEq, Repr

/-- The fixed `headers` array of `TableView.handleExport`. -/
def exportHeaders : List Str :=
  ["req_id".toList, "title".toList, "text".toList, "status".toList,
   "verification_methods".toList, "project_id".toList, "group_id".toList,
   "chapter_id".toList, "parent_ids".toList, "child_ids".toList]

/-- The `values` array built per requirement in `TableView.handleExport`:
multi-valued fields are joined with the pipe character, a missing
`chapter_id` becomes the empty string. -/
def exportValues (r : Requirement) : List Str :=
  [r.req_id, r.title, r.text, r.status,
   List.intercalate ['|'] r.verification_methods,
   r.project_id, r.group_id, r.chapter_id.getD [],
   List.intercalate ['|'] r.parent_ids,
   List.intercalate ['|'] r.child_ids]

/-- One CSV data row: `values.map(escapeCsv).join(',')`. -/
def exportRow (r : Requirement) : Str :=
  List.intercalate [','] ((exportValues r).map escapeCsv)

/-- The `csvContent` string of `TableView.handleExport`:
`[headers.join(','), ...rows].join('\n')`. -/
def csvContent (reqs : List Requirement) : Str :=
  List.intercalate ['\n']
    (List.intercalate [','] exportHeaders :: reqs.map exportRow)

/-- `TableView.handleExport`: exporting an empty requirement list only
shows an error toast and produces no file, otherwise the CSV text above. -/
def handleExport (reqs : List Requirement) : Option Str :=
  if reqs = [] then none else some (csvContent reqs)

/-- The import context of `TableView.handleImport`: `activeGroup?.id` and
`groups[0]?.id`, each encoded as the empty string when absent so that the
JavaScript truthiness chain `activeGroup?.id || groups[0]?.id` is `jsOr`. -/
structure ImportCtx where
  activeGroupId : Str
  firstGroupId : Str
deriving DecidableEq, Repr

/-- The payload object submitted to `createRequirement` for one CSV row in
`TableView.handleImport`. -/
structure Payload where
  title : Str
  text : Str
  status : Str
  verification_methods : List Str
  project_id : Str
  group_id : Str
  chapter_id : Option Str
  parent_ids : List Str
deriving DecidableEq, Repr

/-- The column-index map built from the parsed header row in
`TableView.handleImport`; `none` models JavaScript `indexOf` returning -1. -/
structure ColIdx where
  idxTitle : Nat
  idxText : Option Nat
  idxStatus : Option Nat
  idxVerification : Option Nat
  idxGroup : Option Nat
  idxChapter : Option Nat
deriving DecidableEq, Repr

/-- The `groupIdValue` expression of `TableView.handleImport`: the row cell
when the `group_id` column exists and the raw cell is truthy, otherwise
`activeGroup?.id || groups[0]?.id`. -/
def resolveGroup (ctx : ImportCtx) (idxGroup : Option Nat) (cols : List Str) : Str :=
  match idxGroup with
  | some i =>
    if cols.getD i [] = [] then jsOr ctx.activeGroupId ctx.firstGroupId
    else stripEdgeQuotes (cols.getD i [])
  | none => jsOr ctx.activeGroupId ctx.firstGroupId

/-- Processing of one data row in the `for` loop of `TableView.handleImport`,
up to the `createRequirement` call: `none` when the row is counted as a
failure before creation (blank title after unquoting and trimming, or empty
resolved group id), otherwise the payload passed to `createRequirement`. -/
def rowPayload (ctx : ImportCtx) (projectId : Str) (ci : ColIdx) (line : Str) :
    Option Payload :=
  let cols := chSplit ',' line
  let title := chTrim (stripEdgeQuotes (cols.getD ci.idxTitle []))
  if title = [] then none else
  let textValue :=
    match ci.idxText with
    | some i => stripEdgeQuotes (cols.getD i [])
    | none => []
  let statusValue :=
    match ci.idxStatus with
    | some i => stripEdgeQuotes (jsOr (cols.getD i []) "Draft".toList)
    | none => "Draft".toList
  let verificationRaw :=
    match ci.idxVerification with
    | some i => stripEdgeQuotes (cols.getD i [])
    | none => []
  let groupIdValue := resolveGroup ctx ci.idxGroup cols
  let chapterIdValue : Option Str :=
    match ci.idxChapter with
    | some i => if cols.getD i [] = [] then none else some (stripEdgeQuotes (cols.getD i []))
    | none => none
  if groupIdValue = [] then none else
  let verificationMethods :=
    if verificationRaw = [] then []
    else ((chSplit '|' verificationRaw).map chTrim).filter (fun v => !v.isEmpty)
  some
    { title := title
      text := textValue
      status := jsOr statusValue "Draft".toList
      verification_methods := verificationMethods
      project_id := projectId
      group_id := groupIdValue
      chapter_id :=
        match chapterIdValue with
        | some v => if v = [] then none else some v
        | none => none
      parent_ids := [] }

/-- The running `{successCount, failCount}` of `TableView.handleImport`,
together with the payloads whose `createRequirement` call succeeded. -/
structure ImportResult where
  successCount : Nat
  failCount : Nat
  created : List Payload
deriving DecidableEq, Repr

/-- One iteration of the `for (const line of dataLines)` loop of
`TableView.handleImport`: blank lines are skipped without counting, a row
rejected by `rowPayload` or whose create call fails increments `failCount`,
a successfully created row increments `successCount`. -/
def importStep (create : Payload → Bool) (ctx : ImportCtx) (projectId : Str)
    (ci : ColIdx) (acc : ImportResult) (line : Str) : ImportResult :=
  if chTrim line = [] then acc
  else
    match rowPayload ctx projectId ci line with
    | none => { acc with failCount := acc.failCount + 1 }
    | some p =>
      if create p then
        { acc with successCount := acc.successCount + 1, created := acc.created ++ [p] }
      else { acc with failCount := acc.failCount + 1 }

/-- The `lines` array of `TableView.handleImport`:
`text.split(/\r?\n/).filter(line => line.trim().length > 0)`. -/
def importLines (text : Str) : List Str :=
  (chSplitLines text).filter (fun l => !(chTrim l).isEmpty)

/-- The trimmed header cells of the first surviving line, as in
`headerLine.split(',').map(h => h.trim())`. -/
def parsedHeaders (text : Str) : List Str :=
  match importLines text with
  | [] => []
  | headerLine :: _ => (chSplit ',' headerLine).map chTrim

/-- The errors with which `TableView.handleImport` aborts before processing
any data row. -/
inductive ImportError
  | emptyFile
  | missingTitle
deriving DecidableEq, Repr

/-- The column-index lookups of `TableView.handleImport` over the trimmed
header cells: `none` exactly when `headers.indexOf('title') === -1`, the
case in which the whole import fails with a single error. -/
def importIndices (headers : List Str) : Option ColIdx :=
  match headers.findIdx? (· = "title".toList) with
  | none => none
  | some it =>
    some
      { idxTitle := it
        idxText := headers.findIdx? (· = "text".toList)
        idxStatus := headers.findIdx? (· = "status".toList)
        idxVerification := headers.findIdx? (· = "verification_methods".toList)
        idxGroup := headers.findIdx? (· = "group_id".toList)
        idxChapter := headers.findIdx? (· = "chapter_id".toList) }

/-- `TableView.handleImport` over the file text: fewer than two nonblank
lines aborts with "CSV file appears to be empty"; a header without a
`title` column aborts with a single error before any row is processed;
otherwise every data row is processed by the loop.  `create` models
whether the backend `createRequirement` call for a payload succeeds. -/
def handleImport (ctx : ImportCtx) (projectId : Str) (create : Payload → Bool)
    (text : Str) : Except ImportError ImportResult :=
  match importLines text with
  | [] => .error .emptyFile
  | [_] => .error .emptyFile
  | headerLine :: dataLines =>
    match importIndices ((chSplit ',' headerLine).map chTrim) with
    | none => .error .missingTitle
    | some ci =>
      .ok (dataLines.foldl (importStep create ctx projectId ci)
        { successCount := 0, failCount := 0, created := [] })

/-- A value is safe for the naive comma-splitting import parser when it
contains no quote, comma, newline or carriage return. -/
def cleanValue (v : Str) : Bool :=
  !(v.contains '"') && !(v.contains ',') && !(v.contains '\n') && !(v.contains '\r')

/-- Conditions under which a requirement survives the export/import round
trip on the import-readable fields: every exported cell is `cleanValue`,
the title is trimmed and nonempty, status and group id are nonempty, each
verification method is trimmed, nonempty and pipe-free, and the chapter id
is not the empty string. -/
def exportSafe (r : Requirement) : Bool :=
  (exportValues r).all cleanValue &&
  (chTrim r.title == r.title) && !r.title.isEmpty &&
  !r.status.isEmpty && !r.group_id.isEmpty &&
  r.verification_methods.all
    (fun m => !m.isEmpty && (chTrim m == m) && !(m.contains '|')) &&
  (r.chapter_id != some [])

/-- A value that triggers neither a line break nor the carriage-return pair. -/
def lineClean (v : Str) : Prop := '\n' ∉ v ∧ '\r' ∉ v

/-- The column indices obtained by parsing the header row that
`handleExport` itself writes: `title` is column 1, `text` 2, `status` 3,
`verification_methods` 4, `group_id` 6, `chapter_id` 7. -/
def stdColIdx : ColIdx :=
  { idxTitle := 1
    idxText := some 2
    idxStatus := some 3
    idxVerification := some 4
    idxGroup := some 6
    idxChapter := some 7 }

/-- A requirement whose title contains a comma, the concrete input on which
the export/import round trip breaks. -/
def cexRequirement : Requirement :=
  { id := "i1".toList
    req_id := "R1".toList
    title := "a,b".toList
    text := "t".toList
    status := "Draft".toList
    verification_methods := []
    project_id := "p".toList
    group_id := "g".toList
    chapter_id := none
    parent_ids := []
    child_ids := [] }

/-- The payload that re-importing an exported requirement should recover:
the import-readable fields of `r`, the active project id, and empty
`parent_ids`. -/
def reimport (projectId : Str) (r : Requirement) : Payload :=
  { title := r.title
    text := r.text
    status := r.status
    verification_methods := r.verification_methods
    project_id := projectId
    group_id := r.group_id
    chapter_id := r.chapter_id
    parent_ids := [] }

deriving instance DecidableEq for Except

/-- The side of a neighbor fetch issued by `TableView.handleViewRequirement`. -/
inductive NeighborSide
  | parent
  | child
deriving DecidableEq, Repr

/-- The settled value of one request pushed onto `allRequests` in
`TableView.handleViewRequirement`: a per-id fetch either succeeds with the
record (`data`) or is caught, leaving `data` absent. -/
structure FetchOutcome where
  side : NeighborSide
  data : Option Requirement
deriving DecidableEq, Repr

/-- The `results` array of `TableView.handleViewRequirement`: one settled
outcome per parent id followed by one per child id; `fetch` models the
per-id `GET /requirements/:id` call, `none` being the caught failure. -/
def neighborRequests (fetch : Str → Option Requirement)
    (parentIds childIds : List Str) : List FetchOutcome :=
  parentIds.map (fun i => { side := .parent, data := fetch i })
    ++ childIds.map (fun i => { side := .child, data := fetch i })

/-- The `parentDetails` array: `results.filter(r => r.type === 'parent' &&
r.data).map(r => r.data)`. -/
def parentDetails (fetch : Str → Option Requirement)
    (parentIds childIds : List Str) : List Requirement :=
  (neighborRequests fetch parentIds childIds).filterMap
    (fun res =>
      match res.side, res.data with
      | .parent, some d => some d
      | _, _ => none)

/-- The `childDetails` array: `results.filter(r => r.type === 'child' &&
r.data).map(r => r.data)`. -/
def childDetails (fetch : Str → Option Requirement)
    (parentIds childIds : List Str) : List Requirement :=
  (neighborRequests fetch parentIds childIds).filterMap
    (fun res =>
      match res.side, res.data with
      | .child, some d => some d
      | _, _ => none)

/-- The fields of a requirement consumed by `GraphView.generateGraphData`
(positions, labels and styling are rendering details and carry no graph
structure). -/
structure GraphRequirement where
  id : Str
  group_id : Str
  child_ids : List Str
deriving DecidableEq, Repr

/-- The `filteredRequirements` of `GraphView.generateGraphData`: an empty
group selection shows everything, otherwise only requirements whose
`group_id` is selected. -/
def visibleRequirements (selectedGroups : List Str)
    (reqs : List GraphRequirement) : List GraphRequirement :=
  reqs.filter (fun req => selectedGroups.isEmpty || selectedGroups.contains req.group_id)

/-- The ids of the `newNodes` produced by `GraphView.generateGraphData`. -/
def graphNodeIds (selectedGroups : List Str) (reqs : List GraphRequirement) :
    List Str :=
  (visibleRequirements selectedGroups reqs).map (fun req => req.id)

/-- A rendered edge of `GraphView.generateGraphData`, identified by its
`source` and `target` node ids. -/
structure GraphEdge where
  source : Str
  target : Str
deriving DecidableEq, Repr

/-- The `newEdges` of `GraphView.generateGraphData`: for every visible
requirement and every entry of its `child_ids`, an edge is pushed only when
`childVisible` holds, i.e. some visible requirement has that id. -/
def graphEdges (selectedGroups : List Str) (reqs : List GraphRequirement) :
    List GraphEdge :=
  ((visibleRequirements selectedGroups reqs).map (fun req =>
    req.child_ids.filterMap (fun childId =>
      if (visibleRequirements selectedGroups reqs).any (fun r => r.id == childId) then
        some { source := req.id, target := childId }
      else none))).flatten

/-- Modelled from the spec: the backend Requirement Store record (§3, §4.2)
holding the two edge sets is not part of the provided frontend source; only
its callers are.  The store is an association list from requirement id to
record. -/
structure StoreRecord where
  parent_ids : List Str
  child_ids : List Str
deriving DecidableEq, Repr

/-- Modelled from the spec: the backend requirement collection (§4.1). -/
abbrev Store := List (Str × StoreRecord)

/-- Modelled from the spec: resolution of a requirement id in the Store. -/
def lookupReq (s : Store) (i : Str) : Option StoreRecord :=
  (s.find? (fun e => e.1 == i)).map (fun e => e.2)

/-- Modelled from the spec: an in-place update of every record stored under
an id. -/
def updateReq (s : Store) (i : Str) (f : StoreRecord → StoreRecord) : Store :=
  s.map (fun e => if e.1 = i then (e.1, f e.2) else e)

/-- Modelled from the spec: the typed failures of the relationship graph
operations (§7). -/
inductive EdgeError
  | notFound
  | invalidEdge
deriving DecidableEq, Repr

/-- Modelled from the spec: `addEdge(parentId, childId)` (§4.2) — NotFound
when either endpoint is absent, InvalidEdge on a self-loop, a no-op when the
edge already exists, otherwise `childId` is inserted into the parent's
`child_ids` and `parentId` into the child's `parent_ids` as one atomic
step. -/
def addEdge (s : Store) (parentId childId : Str) : Except EdgeError Store :=
  match lookupReq s parentId, lookupReq s childId with
  | some pr, some _ =>
    if parentId = childId then .error .invalidEdge
    else if childId ∈ pr.child_ids then .ok s
    else
      .ok (updateReq
        (updateReq s parentId (fun r => { r with child_ids := r.child_ids ++ [childId] }))
        childId (fun r => { r with parent_ids := r.parent_ids ++ [parentId] }))
  | _, _ => .error .notFound

/-- Modelled from the spec: `removeEdge(parentId, childId)` (§4.2) —
NotFound when either endpoint is absent, otherwise both sides of the edge
are removed atomically (a no-op when the edge does not exist). -/
def removeEdge (s : Store) (parentId childId : Str) : Except EdgeError Store :=
  match lookupReq s parentId, lookupReq s childId with
  | some _, some _ =>
    .ok (updateReq
      (updateReq s parentId (fun r => { r with child_ids := r.child_ids.filter (fun c => c != childId) }))
      childId (fun r => { r with parent_ids := r.parent_ids.filter (fun p => p != parentId) }))
  | _, _ => .error .notFound

/-- An edge mutation issued against the Store. -/
inductive EdgeOp
  | add (parentId childId : Str)
  | remove (parentId childId : Str)
deriving DecidableEq, Repr

/-- Application of one edge mutation: a failed operation leaves the store
unchanged. -/
def applyOp (s : Store) : EdgeOp → Store
  | .add p c =>
    match addEdge s p c with
    | .ok s' => s'
    | .error _ => s
  | .remove p c =>
    match removeEdge s p c with
    | .ok s' => s'
    | .error _ => s

/-- Application of a sequence of edge mutations in order. -/
def applyOps (s : Store) (ops : List EdgeOp) : Store := ops.foldl applyOp s

/-- The graph-symmetry invariant: for any two stored requirements A and B,
B's id is in A's `child_ids` exactly when A's id is in B's `parent_ids`. -/
def EdgeSymmetric (s : Store) : Prop :=
  ∀ a ∈ s, ∀ b ∈ s, (b.1 ∈ a.2.child_ids ↔ a.1 ∈ b.2.parent_ids)

instance (s : Store) : Decidable (EdgeSymmetric s) := by
  unfold EdgeSymmetric; infer_instance

/-- The requirement fields consumed by the statistics aggregation. -/
structure StatRequirement where
  status : Str
  verification_methods : List Str
  child_ids : List Str
deriving DecidableEq, Repr

/-- The five enumerated status values (§3). -/
def statusEnum : List Str :=
  ["Draft".toList, "In Review".toList, "Accepted".toList,
   "Implemented".toList, "Tested".toList]

/-- Modelled from the spec: a percentage `100 * count / total` rounded to
the nearest whole percent, with every percentage 0 when `total == 0`
(§4.3). -/
def roundedPct (count total : Nat) : Nat :=
  if total = 0 then 0 else (200 * count + total) / (2 * total)

/-- The statistics snapshot served to the Dashboard. -/
structure StatsSnapshot where
  total_requirements : Nat
  status_percentages : List (Str × Nat)
  children_assignment_percentage : Nat
  verification_methods_percentage : Nat
deriving DecidableEq, Repr

/-- Modelled from the spec: the Aggregation Engine (§4.3) behind
`GET /dashboard/stats` is not part of the provided frontend source (the
Dashboard component only renders its response); it is a pure function of
the project's requirement set computing the counts and percentages. -/
def computeStats (reqs : List StatRequirement) : StatsSnapshot :=
  { total_requirements := reqs.length
    status_percentages :=
      statusEnum.map (fun st =>
        (st, roundedPct (reqs.countP (fun r => r.status == st)) reqs.length))
    children_assignment_percentage :=
      roundedPct (reqs.countP (fun r => !r.child_ids.isEmpty)) reqs.length
    verification_methods_percentage :=
      roundedPct (reqs.countP (fun r => !r.verification_methods.isEmpty)) reqs.length }

/-- A requirement on the codec's safe fragment, used to instantiate the
round-trip and export-format theorems at a concrete input. -/
def witRequirement : Requirement :=
  { id := "i2".toList
    req_id := "R2".toList
    title := "Title".toList
    text := "some text".toList
    status := "In Review".toList
    verification_methods := ["Test".toList, "Review".toList]
    project_id := "p".toList
    group_id := "g".toList
    chapter_id := some "ch".toList
    parent_ids := ["x".toList]
    child_ids := ["y".toList, "z".toList] }

/-- A symmetric three-requirement store with one edge. -/
def exStore : Store :=
  [("a".toList, { parent_ids := [], child_ids := ["b".toList] }),
   ("b".toList, { parent_ids := ["a".toList], child_ids := [] }),
   ("c".toList, { parent_ids := [], child_ids := [] })]

/-- A mutation sequence exercising a fresh add, a duplicate add, a
self-loop attempt, a missing endpoint and two removals. -/
def exOps : List EdgeOp :=
  [.add "a".toList "c".toList, .add "a".toList "b".toList,
   .add "c".toList "c".toList, .add "a".toList "zz".toList,
   .remove "a".toList "b".toList, .remove "b".toList "c".toList]

/-- A CSV text with three valid rows and one row missing its title. -/
def c3Text : Str :=
  "title,text,group_id\na,t1,g\nb,t2,g\n,t3,g\nc,t4,g".toList

/-- The payload created for a `c3Text` row with the given title and text. -/
def c3Payload (t tx : Str) : Payload :=
  { title := t
    text := tx
    status := "Draft".toList
    verification_methods := []
    project_id := "p".toList
    group_id := "g".toList
    chapter_id := none
    parent_ids := [] }

/-- The import outcome on `c3Text`: three created, one failed. -/
def c3Result : ImportResult :=
  { successCount := 3
    failCount := 1
    created := [c3Payload "a".toList "t1".toList, c3Payload "b".toList "t2".toList,
                c3Payload "c".toList "t4".toList] }

/-- A CSV text whose header has no `title` column. -/
def c4Text : Str := "req_id,text\nx,y".toList

/-- An import context with both an active group and a fallback group. -/
def c6Ctx : ImportCtx := { activeGroupId := "ag".toList, firstGroupId := "fg".toList }

/-- A column-index map whose `group_id` column is number 2. -/
def c6Ci : ColIdx :=
  { idxTitle := 0
    idxText := none
    idxStatus := none
    idxVerification := none
    idxGroup := some 2
    idxChapter := none }

/-- A data row whose third cell holds a group id. -/
def c6Line : Str := "t,x,g2".toList

/-- A per-id fetch that resolves only the id `x`. -/
def c8Fetch : Str → Option Requirement :=
  fun i => if i = "x".toList then some witRequirement else none

/-- Requirements across two groups, with one `child_ids` entry pointing at
a requirement of the unselected group. -/
def c10Reqs : List GraphRequirement :=
  [{ id := "a".toList, group_id := "g1".toList,
     child_ids := ["b".toList, "hidden".toList] },
   { id := "b".toList, group_id := "g1".toList, child_ids := [] },
   { id := "hidden".toList, group_id := "g2".toList, child_ids := [] }]

/-- The selection showing only group `g1`. -/
def c10Groups : List Str := ["g1".toList]

/-- The one edge that survives the group filter. -/
def c10Edge : GraphEdge := { source := "a".toList, target := "b".toList }

/-! Helper lemmas about the character-list string operations. -/

lemma intercalate_cons₂ (s v w : Str) (rest : List Str) :
    List.intercalate s (v :: w :: rest) = v ++ s ++ List.intercalate s (w :: rest) := by
  simp [List.intercalate]

lemma intercalate_single (s v : Str) : List.intercalate s [v] = v := by
  simp [List.intercalate]

lemma consHead_ne_nil (c : Char) (rs : List Str) : consHead c rs ≠ [] := by
  cases rs <;> simp [consHead]

lemma consHead_cons (c : Char) (r : Str) (rs : List Str) :
    consHead c (r :: rs) = (c :: r) :: rs := rfl

lemma chSplit_ne_nil (sep : Char) (l : Str) : chSplit sep l ≠ [] := by
  cases l with
  | nil => simp [chSplit]
  | cons c cs =>
    simp only [chSplit]
    split
    · simp
    · exact consHead_ne_nil c _

lemma chSplit_of_not_mem (sep : Char) (v : Str) (h : sep ∉ v) :
    chSplit sep v = [v] := by
  induction v with
  | nil => rfl
  | cons c cs ih =>
    have hc : c ≠ sep := fun hcs => h (hcs ▸ List.mem_cons_self c cs)
    have hcs : sep ∉ cs := fun hm => h (List.mem_cons_of_mem c hm)
    simp only [chSplit, hc, if_false, ih hcs, consHead_cons]

lemma chSplit_append_sep (sep : Char) (v rest : Str) (h : sep ∉ v) :
    chSplit sep (v ++ sep :: rest) = v :: chSplit sep rest := by
  induction v with
  | nil =>
    simp [chSplit]
  | cons c cs ih =>
    have hc : c ≠ sep := fun hcs => h (hcs ▸ List.mem_cons_self c cs)
    have hcs : sep ∉ cs := fun hm => h (List.mem_cons_of_mem c hm)
    rw [List.cons_append]
    conv_lhs => unfold chSplit
    rw [if_neg hc, ih hcs, consHead_cons]

lemma chSplit_intercalate (sep : Char) (vs : List Str) (hvs : vs ≠ [])
    (h : ∀ v ∈ vs, sep ∉ v) :
    chSplit sep (List.intercalate [sep] vs) = vs := by
  induction vs with
  | nil => exact absurd rfl hvs
  | cons v rest ih =>
    cases rest with
    | nil =>
      rw [intercalate_single]
      exact chSplit_of_not_mem sep v (h v (List.mem_cons_self v []))
    | cons w rest' =>
      rw [intercalate_cons₂]
      have hv : sep ∉ v := h v (List.mem_cons_self v _)
      rw [List.append_assoc, List.singleton_append, chSplit_append_sep sep v _ hv]
      rw [ih (by simp) (fun x hx => h x (List.mem_cons_of_mem v hx))]

lemma mem_intercalate_sep (sep : Char) (c : Char) (vs : List Str)
    (h : c ∈ List.intercalate [sep] vs) : c = sep ∨ ∃ v ∈ vs, c ∈ v := by
  induction vs with
  | nil => simp [List.intercalate] at h
  | cons v rest ih =>
    cases rest with
    | nil =>
      rw [intercalate_single] at h
      exact Or.inr ⟨v, List.mem_cons_self v [], h⟩
    | cons w rest' =>
      rw [intercalate_cons₂, List.append_assoc, List.singleton_append,
        List.mem_append] at h
      rcases h with hv | hrest
      · exact Or.inr ⟨v, List.mem_cons_self v _, hv⟩
      · rcases List.mem_cons.mp hrest with hc | hr
        · exact Or.inl hc
        · rcases ih hr with hc | ⟨x, hx, hcx⟩
          · exact Or.inl hc
          · exact Or.inr ⟨x, List.mem_cons_of_mem v hx, hcx⟩

lemma sep_mem_intercalate (sep : Char) (v w : Str) (rest : List Str) :
    sep ∈ List.intercalate [sep] (v :: w :: rest) := by
  rw [intercalate_cons₂, List.append_assoc, List.singleton_append]
  exact List.mem_append_right v (List.mem_cons_self sep _)

lemma intercalate_ne_nil_of_head_ne_nil (sep : Char) (v : Str) (rest : List Str)
    (h : v ≠ []) : List.intercalate [sep] (v :: rest) ≠ [] := by
  cases rest with
  | nil => rwa [intercalate_single]
  | cons w rest' =>
    rw [intercalate_cons₂]
    cases v with
    | nil => exact absurd rfl h
    | cons a as => simp

lemma mem_chTrimLeft_of_not_white {c : Char} {l : Str} (hc : c.isWhitespace = false)
    (h : c ∈ l) : c ∈ chTrimLeft l := by
  induction l with
  | nil => exact absurd h (List.not_mem_nil c)
  | cons a as ih =>
    unfold chTrimLeft
    by_cases ha : a.isWhitespace
    · have hca : c ≠ a := fun he => by rw [he] at hc; rw [hc] at ha; exact Bool.false_ne_true ha
      rcases List.mem_cons.mp h with he | hm
      · exact absurd he hca
      · simp only [ha, if_true]
        exact ih hm
    · simp only [ha, if_false]
      exact h

lemma chTrim_ne_nil_of_mem {c : Char} {l : Str} (hc : c.isWhitespace = false)
    (h : c ∈ l) : chTrim l ≠ [] := by
  unfold chTrim chTrimRight
  intro hnil
  have h1 : c ∈ chTrimLeft l := mem_chTrimLeft_of_not_white hc h
  have h2 : c ∈ (chTrimLeft l).reverse := List.mem_reverse.mpr h1
  have h3 : c ∈ chTrimLeft (chTrimLeft l).reverse := mem_chTrimLeft_of_not_white hc h2
  rw [List.reverse_eq_nil_iff] at hnil
  rw [hnil] at h3
  exact List.not_mem_nil c h3

lemma chSplitLines_ne_nil (l : Str) : chSplitLines l ≠ [] := by
  cases l with
  | nil => simp [chSplitLines]
  | cons c cs =>
    conv_lhs => unfold chSplitLines
    split
    · simp
    · split
      · split
        · simp
        · split
          · simp
          · exact consHead_ne_nil c _
      · exact consHead_ne_nil c _

lemma chSplitLines_cons_of_plain (c : Char) (cs : Str) (hn : c ≠ '\n') (hr : c ≠ '\r') :
    chSplitLines (c :: cs) = consHead c (chSplitLines cs) := by
  conv_lhs => unfold chSplitLines
  rw [if_neg hn, if_neg hr]

lemma chSplitLines_of_clean (v : Str) (h : lineClean v) : chSplitLines v = [v] := by
  induction v with
  | nil => rfl
  | cons c cs ih =>
    have hn : c ≠ '\n' := fun he => h.1 (he ▸ List.mem_cons_self c cs)
    have hr : c ≠ '\r' := fun he => h.2 (he ▸ List.mem_cons_self c cs)
    have hcs : lineClean cs :=
      ⟨fun hm => h.1 (List.mem_cons_of_mem c hm), fun hm => h.2 (List.mem_cons_of_mem c hm)⟩
    rw [chSplitLines_cons_of_plain c cs hn hr, ih hcs, consHead_cons]

lemma chSplitLines_append (v rest : Str) (h : lineClean v) :
    chSplitLines (v ++ '\n' :: rest) = v :: chSplitLines rest := by
  induction v with
  | nil =>
    simp only [List.nil_append]
    conv_lhs => unfold chSplitLines
    rw [if_pos rfl]
  | cons c cs ih =>
    have hn : c ≠ '\n' := fun he => h.1 (he ▸ List.mem_cons_self c cs)
    have hr : c ≠ '\r' := fun he => h.2 (he ▸ List.mem_cons_self c cs)
    have hcs : lineClean cs :=
      ⟨fun hm => h.1 (List.mem_cons_of_mem c hm), fun hm => h.2 (List.mem_cons_of_mem c hm)⟩
    rw [List.cons_append, chSplitLines_cons_of_plain c _ hn hr, ih hcs, consHead_cons]

lemma chSplitLines_intercalate (vs : List Str) (hvs : vs ≠ [])
    (h : ∀ v ∈ vs, lineClean v) :
    chSplitLines (List.intercalate ['\n'] vs) = vs := by
  induction vs with
  | nil => exact absurd rfl hvs
  | cons v rest ih =>
    cases rest with
    | nil =>
      rw [intercalate_single]
      exact chSplitLines_of_clean v (h v (List.mem_cons_self v []))
    | cons w rest' =>
      rw [intercalate_cons₂, List.append_assoc, List.singleton_append,
        chSplitLines_append v _ (h v (List.mem_cons_self v _))]
      rw [ih (by simp) (fun x hx => h x (List.mem_cons_of_mem v hx))]

lemma stripLeadQuote_of_not_mem (l : Str) (h : '"' ∉ l) : stripLeadQuote l = l := by
  cases l with
  | nil => rfl
  | cons c cs =>
    have hc : c ≠ '"' := fun he => h (he ▸ List.mem_cons_self c cs)
    simp [stripLeadQuote, hc]

lemma stripEdgeQuotes_of_not_mem (l : Str) (h : '"' ∉ l) : stripEdgeQuotes l = l := by
  unfold stripEdgeQuotes
  rw [stripLeadQuote_of_not_mem l h,
    stripLeadQuote_of_not_mem l.reverse (fun hm => h (List.mem_reverse.mp hm)),
    List.reverse_reverse]

lemma escapeCsv_of_clean (v : Str) (h : cleanValue v = true) : escapeCsv v = v := by
  unfold cleanValue at h
  simp only [Bool.and_eq_true, Bool.not_eq_true'] at h
  unfold escapeCsv
  rw [h.1.1.1, h.1.1.2, h.1.2]
  simp

lemma cleanValue_not_mem (v : Str) (h : cleanValue v = true) :
    '"' ∉ v ∧ ',' ∉ v ∧ '\n' ∉ v ∧ '\r' ∉ v := by
  simp [cleanValue] at h
  tauto

/-! The claims. -/

/-- C8: for every requirement, the neighbors query for the parents side and
the children side returns exactly the resolved records of the recorded
neighbor ids, in order, silently skipping every id whose per-id fetch
fails; a single unresolvable id never fails the whole query. -/
theorem C8_neighbor_resolution_tolerance (fetch : Str → Option Requirement)
    (parentIds childIds : List Str) :
    parentDetails fetch parentIds childIds = parentIds.filterMap fetch ∧
    childDetails fetch parentIds childIds = childIds.filterMap fetch := by
  constructor
  · unfold parentDetails neighborRequests
    rw [List.filterMap_append, List.filterMap_map, List.filterMap_map]
    have h2 : ∀ l : List Str, List.filterMap
        ((fun (res : FetchOutcome) =>
          match res.side, res.data with
          | .parent, some d => some d
          | _, _ => none) ∘ fun i => ({ side := .child, data := fetch i } : FetchOutcome)) l = [] := by
      intro l
      induction l with
      | nil => rfl
      | cons a t ih =>
        rw [List.filterMap_cons]
        cases hfa : fetch a <;> simp [hfa, Function.comp, ih]
    have h1 : ∀ l : List Str, List.filterMap
        ((fun (res : FetchOutcome) =>
          match res.side, res.data with
          | .parent, some d => some d
          | _, _ => none) ∘ fun i => ({ side := .parent, data := fetch i } : FetchOutcome)) l =
        l.filterMap fetch := by
      intro l
      induction l with
      | nil => rfl
      | cons a t ih =>
        rw [List.filterMap_cons, List.filterMap_cons]
        cases hfa : fetch a <;> simp [hfa, Function.comp, ih]
    rw [h1, h2, List.append_nil]
  · unfold childDetails neighborRequests
    rw [List.filterMap_append, List.filterMap_map, List.filterMap_map]
    have h1 : ∀ l : List Str, List.filterMap
        ((fun (res : FetchOutcome) =>
          match res.side, res.data with
          | .child, some d => some d
          | _, _ => none) ∘ fun i => ({ side := .parent, data := fetch i } : FetchOutcome)) l = [] := by
      intro l
      induction l with
      | nil => rfl
      | cons a t ih =>
        rw [List.filterMap_cons]
        cases hfa : fetch a <;> simp [hfa, Function.comp, ih]
    have h2 : ∀ l : List Str, List.filterMap
        ((fun (res : FetchOutcome) =>
          match res.side, res.data with
          | .child, some d => some d
          | _, _ => none) ∘ fun i => ({ side := .child, data := fetch i } : FetchOutcome)) l =
        l.filterMap fetch := by
      intro l
      induction l with
      | nil => rfl
      | cons a t ih =>
        rw [List.filterMap_cons, List.filterMap_cons]
        cases hfa : fetch a <;> simp [hfa, Function.comp, ih]
    rw [h1, h2, List.nil_append]

/-- C9: for an empty requirement set the statistics snapshot reports total
0, a percentage entry for each of the five enumerated statuses, and every
percentage equal to 0 — no division by zero can occur. -/
theorem C9_aggregation_zero_case :
    (computeStats []).total_requirements = 0 ∧
    (computeStats []).status_percentages.map Prod.fst = statusEnum ∧
    ((computeStats []).status_percentages.all (fun pr => pr.2 == 0)) = true ∧
    (computeStats []).children_assignment_percentage = 0 ∧
    (computeStats []).verification_methods_percentage = 0 := by
  decide

/-- C10: every edge produced by `generateGraphData` has both endpoints
among the produced node ids — an edge is emitted for a `child_ids` entry
only when both the parent and the child pass the group filter. -/
theorem C10_rendered_graph_well_formed (selectedGroups : List Str)
    (reqs : List GraphRequirement) (e : GraphEdge)
    (he : e ∈ graphEdges selectedGroups reqs) :
    e.source ∈ graphNodeIds selectedGroups reqs ∧
    e.target ∈ graphNodeIds selectedGroups reqs := by
  unfold graphEdges at he
  rw [List.mem_flatten] at he
  obtain ⟨l, hl, hel⟩ := he
  rw [List.mem_map] at hl
  obtain ⟨req, hreq, rfl⟩ := hl
  rw [List.mem_filterMap] at hel
  obtain ⟨childId, _, hif⟩ := hel
  by_cases hvis : (visibleRequirements selectedGroups reqs).any (fun r => r.id == childId)
  · rw [if_pos hvis, Option.some.injEq] at hif
    subst hif
    constructor
    · exact List.mem_map_of_mem _ hreq
    · rw [List.any_eq_true] at hvis
      obtain ⟨r, hr, hid⟩ := hvis
      rw [beq_iff_eq] at hid
      unfold graphNodeIds
      rw [List.mem_map]
      exact ⟨r, hr, hid⟩
  · rw [if_neg hvis] at hif
    exact absurd hif (Option.noConfusion)

lemma rowPayload_some_parent_ids {ctx : ImportCtx} {pid : Str} {ci : ColIdx}
    {line : Str} {p : Payload} (h : rowPayload ctx pid ci line = some p) :
    p.parent_ids = [] := by
  simp only [rowPayload] at h
  split at h
  · exact absurd h (by simp)
  · split at h
    · exact absurd h (by simp)
    · rw [Option.some.injEq] at h
      rw [← h]

lemma foldl_importStep_created_all (create : Payload → Bool) (ctx : ImportCtx)
    (pid : Str) (ci : ColIdx) (pred : Payload → Bool)
    (hrow : ∀ line p, rowPayload ctx pid ci line = some p → pred p = true) :
    ∀ (lines : List Str) (acc : ImportResult), acc.created.all pred = true →
      ((lines.foldl (importStep create ctx pid ci) acc).created.all pred) = true := by
  intro lines
  induction lines with
  | nil => intro acc h; exact h
  | cons l t ih =>
    intro acc hacc
    rw [List.foldl_cons]
    apply ih
    unfold importStep
    split
    · exact hacc
    · split
      · exact hacc
      · rename_i p hp
        split
        · rw [List.all_append]
          simp only [hacc, List.all_cons, List.all_nil, Bool.and_true, Bool.true_and]
          exact hrow l p hp
        · exact hacc

/-- C7: every payload submitted to the Store's create operation by the
importer has `parent_ids` initialized empty, whatever the `parent_ids` or
`child_ids` content of the CSV row; consequently every record created by a
run of the import carries an empty `parent_ids`. -/
theorem C7_import_never_restores_edges :
    (∀ (ctx : ImportCtx) (pid : Str) (ci : ColIdx) (line : Str) (p : Payload),
      rowPayload ctx pid ci line = some p → p.parent_ids = []) ∧
    (∀ (ctx : ImportCtx) (pid : Str) (create : Payload → Bool) (text : Str)
      (res : ImportResult), handleImport ctx pid create text = .ok res →
      res.created.all (fun p => p.parent_ids.isEmpty) = true) := by
  constructor
  · intro ctx pid ci line p h
    exact rowPayload_some_parent_ids h
  · intro ctx pid create text res h
    unfold handleImport at h
    split at h
    · exact absurd h (by simp)
    · exact absurd h (by simp)
    · split at h
      · exact absurd h (by simp)
      · rw [Except.ok.injEq] at h
        rw [← h]
        apply foldl_importStep_created_all
        · intro line p hp
          rw [List.isEmpty_iff]
          exact rowPayload_some_parent_ids hp
        · rfl

/-- C6: a row's group id is the row's `group_id` cell (unquoted) when that
column exists and the raw cell is nonempty, otherwise the active group id,
otherwise the first available group id; a row whose resolved group id is
empty is rejected (given its title survived), creating nothing. -/
theorem C6_import_group_resolution (ctx : ImportCtx) (pid : Str) (ci : ColIdx)
    (line : Str) :
    (∀ p, rowPayload ctx pid ci line = some p →
      p.group_id = resolveGroup ctx ci.idxGroup (chSplit ',' line) ∧ p.group_id ≠ []) ∧
    (resolveGroup ctx ci.idxGroup (chSplit ',' line) = [] →
      rowPayload ctx pid ci line = none) ∧
    (∀ i, ci.idxGroup = some i → (chSplit ',' line).getD i [] ≠ [] →
      resolveGroup ctx ci.idxGroup (chSplit ',' line) =
        stripEdgeQuotes ((chSplit ',' line).getD i [])) ∧
    (∀ i, ci.idxGroup = some i → (chSplit ',' line).getD i [] = [] →
      resolveGroup ctx ci.idxGroup (chSplit ',' line) =
        jsOr ctx.activeGroupId ctx.firstGroupId) ∧
    (ci.idxGroup = none →
      resolveGroup ctx ci.idxGroup (chSplit ',' line) =
        jsOr ctx.activeGroupId ctx.firstGroupId) := by
  refine ⟨?_, ?_, ?_, ?_, ?_⟩
  · intro p h
    simp only [rowPayload] at h
    split at h
    · exact absurd h (by simp)
    · rename_i hgrp
      split at h
      · exact absurd h (by simp)
      · rename_i hne
        rw [Option.some.injEq] at h
        rw [← h]
        exact ⟨rfl, hne⟩
  · intro hres
    simp only [rowPayload]
    split
    all_goals simp_all
  · intro i hi hne
    simp only [resolveGroup, hi, if_neg hne]
  · intro i hi hnil
    simp only [resolveGroup, hi, if_pos hnil]
  · intro hi
    simp only [resolveGroup, hi]

/-- C4: when the parsed header row lacks a `title` column the whole import
fails with the single missing-title error and no creation is attempted;
when the `title` column is present the import proceeds to row processing
and returns a result. -/
theorem C4_required_title_column (ctx : ImportCtx) (pid : Str)
    (create : Payload → Bool) (text : Str)
    (h2 : 2 ≤ (importLines text).length) :
    ("title".toList ∉ parsedHeaders text →
      handleImport ctx pid create text = .error .missingTitle) ∧
    ("title".toList ∈ parsedHeaders text →
      ∃ res, handleImport ctx pid create text = .ok res) := by
  cases hl : importLines text with
  | nil => rw [hl] at h2; simp at h2
  | cons headerLine rest =>
    cases rest with
    | nil => rw [hl] at h2; simp at h2
    | cons l2 rest2 =>
      have hph : parsedHeaders text = (chSplit ',' headerLine).map chTrim := by
        unfold parsedHeaders
        rw [hl]
      have hhi : handleImport ctx pid create text =
          match importIndices ((chSplit ',' headerLine).map chTrim) with
          | none => .error .missingTitle
          | some ci =>
            .ok ((l2 :: rest2).foldl (importStep create ctx pid ci)
              { successCount := 0, failCount := 0, created := [] }) := by
        unfold handleImport
        rw [hl]
      constructor
      · intro hnot
        rw [hph] at hnot
        have hnone : importIndices ((chSplit ',' headerLine).map chTrim) = none := by
          unfold importIndices
          have : ((chSplit ',' headerLine).map chTrim).findIdx?
              (· = "title".toList) = none := by
            rw [List.findIdx?_eq_none_iff]
            intro x hx
            simp only [decide_eq_false_iff_not]
            intro he
            exact hnot (he ▸ hx)
          rw [this]
        rw [hhi, hnone]
      · intro hmem
        rw [hph] at hmem
        cases hidx : ((chSplit ',' headerLine).map chTrim).findIdx?
            (· = "title".toList) with
        | none =>
          rw [List.findIdx?_eq_none_iff] at hidx
          have := hidx _ hmem
          simp at this
        | some it =>
          rw [hhi]
          unfold importIndices
          rw [hidx]
          exact ⟨_, rfl⟩

lemma importLines_nonblank (text : Str) : ∀ l ∈ importLines text, chTrim l ≠ [] := by
  intro l hl
  unfold importLines at hl
  rw [List.mem_filter] at hl
  simpa using hl.2

lemma importStep_blank {create : Payload → Bool} {ctx : ImportCtx} {pid : Str}
    {ci : ColIdx} {acc : ImportResult} {l : Str} (hl : chTrim l = []) :
    importStep create ctx pid ci acc l = acc := by
  unfold importStep
  rw [if_pos hl]

lemma importStep_fail_row {create : Payload → Bool} {ctx : ImportCtx} {pid : Str}
    {ci : ColIdx} {acc : ImportResult} {l : Str} (hl : chTrim l ≠ [])
    (hrp : rowPayload ctx pid ci l = none) :
    importStep create ctx pid ci acc l = { acc with failCount := acc.failCount + 1 } := by
  unfold importStep
  rw [if_neg hl, hrp]

lemma importStep_fail_create {create : Payload → Bool} {ctx : ImportCtx} {pid : Str}
    {ci : ColIdx} {acc : ImportResult} {l : Str} {p : Payload} (hl : chTrim l ≠ [])
    (hrp : rowPayload ctx pid ci l = some p) (hc : create p = false) :
    importStep create ctx pid ci acc l = { acc with failCount := acc.failCount + 1 } := by
  unfold importStep
  rw [if_neg hl, hrp]
  simp [hc]

lemma importStep_success {create : Payload → Bool} {ctx : ImportCtx} {pid : Str}
    {ci : ColIdx} {acc : ImportResult} {l : Str} {p : Payload} (hl : chTrim l ≠ [])
    (hrp : rowPayload ctx pid ci l = some p) (hc : create p = true) :
    importStep create ctx pid ci acc l =
      { acc with successCount := acc.successCount + 1, created := acc.created ++ [p] } := by
  unfold importStep
  rw [if_neg hl, hrp]
  simp [hc]

lemma foldl_importStep_counts (create : Payload → Bool) (ctx : ImportCtx)
    (pid : Str) (ci : ColIdx) :
    ∀ (lines : List Str) (acc : ImportResult), (∀ l ∈ lines, chTrim l ≠ []) →
      ∃ S F P, lines.foldl (importStep create ctx pid ci) acc =
        { successCount := acc.successCount + S, failCount := acc.failCount + F,
          created := acc.created ++ P } ∧ S + F = lines.length ∧ P.length = S := by
  intro lines
  induction lines with
  | nil =>
    intro acc _
    exact ⟨0, 0, [], by simp, by simp, rfl⟩
  | cons l t ih =>
    intro acc hnb
    have hl : chTrim l ≠ [] := hnb l (List.mem_cons_self l t)
    have ht : ∀ x ∈ t, chTrim x ≠ [] := fun x hx => hnb x (List.mem_cons_of_mem l hx)
    rw [List.foldl_cons]
    cases hrp : rowPayload ctx pid ci l with
    | none =>
      rw [importStep_fail_row hl hrp]
      obtain ⟨S, F, P, heq, hSF, hP⟩ := ih { acc with failCount := acc.failCount + 1 } ht
      refine ⟨S, F + 1, P, ?_, by simp only [List.length_cons]; omega, hP⟩
      rw [heq]
      simp only [ImportResult.mk.injEq, List.append_assoc, List.singleton_append,
        true_and, and_true]
      try omega
    | some p =>
      cases hc : create p with
      | true =>
        rw [importStep_success hl hrp hc]
        obtain ⟨S, F, P, heq, hSF, hP⟩ := ih
          { acc with successCount := acc.successCount + 1, created := acc.created ++ [p] } ht
        refine ⟨S + 1, F, p :: P, ?_, by simp only [List.length_cons]; omega, by simp [hP]⟩
        rw [heq]
        simp only [ImportResult.mk.injEq, List.append_assoc, List.singleton_append,
          List.cons_append, List.nil_append, true_and, and_true]
        omega
      | false =>
        rw [importStep_fail_create hl hrp hc]
        obtain ⟨S, F, P, heq, hSF, hP⟩ := ih { acc with failCount := acc.failCount + 1 } ht
        refine ⟨S, F + 1, P, ?_, by simp only [List.length_cons]; omega, hP⟩
        rw [heq]
        simp only [ImportResult.mk.injEq, List.append_assoc, List.singleton_append,
          true_and, and_true]
        try omega

/-- C3: whenever the import gets past its header checks it processes every
data row to completion — the number of successes plus the number of
failures equals the number of nonblank data rows, with no early abort —
and exactly `successCount` requirements are created. -/
theorem C3_import_partial_failure_accounting (ctx : ImportCtx) (pid : Str)
    (create : Payload → Bool) (text : Str) (res : ImportResult)
    (h : handleImport ctx pid create text = .ok res) :
    res.created.length = res.successCount ∧
    res.successCount + res.failCount = (importLines text).length - 1 := by
  cases hl : importLines text with
  | nil =>
    unfold handleImport at h
    rw [hl] at h
    exact absurd h (by simp)
  | cons headerLine dataLines =>
    cases dataLines with
    | nil =>
      unfold handleImport at h
      rw [hl] at h
      exact absurd h (by simp)
    | cons l2 rest2 =>
      have hhi : handleImport ctx pid create text =
          match importIndices ((chSplit ',' headerLine).map chTrim) with
          | none => .error .missingTitle
          | some ci =>
            .ok ((l2 :: rest2).foldl (importStep create ctx pid ci)
              { successCount := 0, failCount := 0, created := [] }) := by
        unfold handleImport
        rw [hl]
      rw [hhi] at h
      cases hci : importIndices ((chSplit ',' headerLine).map chTrim) with
      | none =>
        rw [hci] at h
        exact absurd h (by simp)
      | some ci =>
        rw [hci] at h
        rw [Except.ok.injEq] at h
        have hnb : ∀ x ∈ l2 :: rest2, chTrim x ≠ [] := by
          intro x hx
          exact importLines_nonblank text x (by rw [hl]; exact List.mem_cons_of_mem _ hx)
        obtain ⟨S, F, P, heq, hSF, hP⟩ :=
          foldl_importStep_counts create ctx pid ci (l2 :: rest2)
            { successCount := 0, failCount := 0, created := [] } hnb
        rw [heq] at h
        have hs := congrArg ImportResult.successCount h
        have hf := congrArg ImportResult.failCount h
        have hcr := congrArg ImportResult.created h
        simp only at hs hf hcr
        refine ⟨?_, ?_⟩
        · rw [← hcr, ← hs]
          simpa using hP
        · rw [← hs, ← hf]
          simp only [List.length_cons] at hSF ⊢
          omega

/-- C5: the exported text starts with exactly the fixed ten-column header
line, and every data row serializes the three multi-valued fields
(`verification_methods`, `parent_ids`, `child_ids`) by joining their
elements with the pipe character before CSV escaping. -/
theorem C5_export_format (reqs : List Requirement) (h : reqs ≠ []) :
    handleExport reqs = some (csvContent reqs) ∧
    (chSplitLines (csvContent reqs)).headD [] =
      "req_id,title,text,status,verification_methods,project_id,group_id,chapter_id,parent_ids,child_ids".toList ∧
    ∀ r ∈ reqs, exportRow r =
      List.intercalate [','] (List.map escapeCsv
        [r.req_id, r.title, r.text, r.status,
         List.intercalate ['|'] r.verification_methods,
         r.project_id, r.group_id, r.chapter_id.getD [],
         List.intercalate ['|'] r.parent_ids,
         List.intercalate ['|'] r.child_ids]) := by
  refine ⟨by simp [handleExport, h], ?_, fun r _ => rfl⟩
  cases reqs with
  | nil => exact absurd rfl h
  | cons r rest =>
    unfold csvContent
    rw [List.map_cons, intercalate_cons₂]
    have hclean : lineClean (List.intercalate [','] exportHeaders) := by
      constructor <;> decide
    rw [List.append_assoc, List.singleton_append, chSplitLines_append _ _ hclean]
    rw [List.headD_cons]
    decide

lemma addEdge_symm {s s' : Store} {p c : Str} (hsym : EdgeSymmetric s)
    (h : addEdge s p c = .ok s') : EdgeSymmetric s' := by
  unfold addEdge at h
  split at h
  · rename_i pr cr hlp hlc
    split at h
    · exact absurd h (by simp)
    · rename_i hpc
      split at h
      · rw [Except.ok.injEq] at h
        rw [← h]
        exact hsym
      · rw [Except.ok.injEq] at h
        rw [← h]
        intro a' ha' b' hb'
        simp only [updateReq, List.mem_map] at ha' hb'
        obtain ⟨x, hx, hxa⟩ := ha'
        obtain ⟨a, ha, hax⟩ := hx
        obtain ⟨y, hy, hyb⟩ := hb'
        obtain ⟨b, hb, hby⟩ := hy
        subst hax hxa hby hyb
        have hab := hsym a ha b hb
        by_cases hap : a.1 = p <;> by_cases hbc : b.1 = c <;>
          by_cases hac : a.1 = c <;> by_cases hbp : b.1 = p <;>
          simp_all [List.mem_append]
  · exact absurd h (by simp)

lemma removeEdge_symm {s s' : Store} {p c : Str} (hsym : EdgeSymmetric s)
    (h : removeEdge s p c = .ok s') : EdgeSymmetric s' := by
  unfold removeEdge at h
  split at h
  · rw [Except.ok.injEq] at h
    rw [← h]
    intro a' ha' b' hb'
    simp only [updateReq, List.mem_map] at ha' hb'
    obtain ⟨x, hx, hxa⟩ := ha'
    obtain ⟨a, ha, hax⟩ := hx
    obtain ⟨y, hy, hyb⟩ := hb'
    obtain ⟨b, hb, hby⟩ := hy
    subst hax hxa hby hyb
    have hab := hsym a ha b hb
    by_cases hap : a.1 = p <;> by_cases hbc : b.1 = c <;>
      by_cases hac : a.1 = c <;> by_cases hbp : b.1 = p <;>
      simp_all [List.mem_filter]
  · exact absurd h (by simp)

lemma applyOp_symm {s : Store} (hsym : EdgeSymmetric s) (op : EdgeOp) :
    EdgeSymmetric (applyOp s op) := by
  cases op with
  | add p c =>
    show EdgeSymmetric (match addEdge s p c with | .ok s' => s' | .error _ => s)
    cases hadd : addEdge s p c with
    | ok s' => exact addEdge_symm hsym hadd
    | error e => exact hsym
  | remove p c =>
    show EdgeSymmetric (match removeEdge s p c with | .ok s' => s' | .error _ => s)
    cases hrem : removeEdge s p c with
    | ok s' => exact removeEdge_symm hsym hrem
    | error e => exact hsym

/-- C2: graph symmetry is an invariant of the Store — from any symmetric
store, after any sequence of `addEdge`/`removeEdge` mutations (each prefix
being an observable point), for any two stored requirements A and B, B's id
is in A's `child_ids` exactly when A's id is in B's `parent_ids`. -/
theorem C2_graph_symmetry_invariant (s : Store) (ops : List EdgeOp)
    (hsym : EdgeSymmetric s) : EdgeSymmetric (applyOps s ops) := by
  induction ops generalizing s with
  | nil => exact hsym
  | cons op rest ih =>
    unfold applyOps
    rw [List.foldl_cons]
    exact ih (applyOp s op) (applyOp_symm hsym op)

lemma contains_eq_false_iff (l : Str) (c : Char) : l.contains c = false ↔ c ∉ l := by
  rw [← Bool.not_eq_true]
  simp

lemma map_eq_self_of_mem {α : Type} (l : List α) (f : α → α)
    (h : ∀ a ∈ l, f a = a) : l.map f = l := by
  rw [List.map_congr_left h]
  simp

lemma exportSafe_spec (r : Requirement) (hs : exportSafe r = true) :
    (∀ v ∈ exportValues r, cleanValue v = true) ∧
    chTrim r.title = r.title ∧ r.title ≠ [] ∧ r.status ≠ [] ∧ r.group_id ≠ [] ∧
    (∀ m ∈ r.verification_methods, m ≠ [] ∧ chTrim m = m ∧ '|' ∉ m) ∧
    r.chapter_id ≠ some [] := by
  simp only [exportSafe, Bool.and_eq_true, List.all_eq_true, beq_iff_eq,
    Bool.not_eq_true', List.isEmpty_eq_false, bne_iff_ne] at hs
  obtain ⟨⟨⟨⟨⟨⟨h0, h1⟩, h2⟩, h3⟩, h4⟩, h5⟩, h6⟩ := hs
  refine ⟨h0, h1, h2, h3, h4, ?_, h6⟩
  intro m hm
  have hmm := h5 m hm
  obtain ⟨⟨hma, hmb⟩, hmc⟩ := hmm
  exact ⟨hma, hmb, (contains_eq_false_iff m '|').mp hmc⟩

lemma exportRow_eq_intercalate (r : Requirement) (hs : exportSafe r = true) :
    exportRow r = List.intercalate [','] (exportValues r) := by
  have hcv := (exportSafe_spec r hs).1
  unfold exportRow
  congr 1
  exact map_eq_self_of_mem _ _ (fun v hv => escapeCsv_of_clean v (hcv v hv))

lemma rowPayload_exportRow (ctx : ImportCtx) (pid : Str) (r : Requirement)
    (hs : exportSafe r = true) :
    rowPayload ctx pid stdColIdx (exportRow r) = some (reimport pid r) := by
  obtain ⟨hcv, ht_trim, ht_ne, hst_ne, hg_ne, hvm, hch⟩ := exportSafe_spec r hs
  have hcols : chSplit ',' (exportRow r) = exportValues r := by
    rw [exportRow_eq_intercalate r hs]
    refine chSplit_intercalate ',' (exportValues r) (by simp [exportValues]) ?_
    intro v hv
    exact (cleanValue_not_mem v (hcv v hv)).2.1
  have c1 : (exportValues r).getD 1 [] = r.title := rfl
  have c2 : (exportValues r).getD 2 [] = r.text := rfl
  have c3 : (exportValues r).getD 3 [] = r.status := rfl
  have c4 : (exportValues r).getD 4 [] =
    List.intercalate ['|'] r.verification_methods := rfl
  have c6 : (exportValues r).getD 6 [] = r.group_id := rfl
  have c7 : (exportValues r).getD 7 [] = r.chapter_id.getD [] := rfl
  have hq_title : '"' ∉ r.title :=
    (cleanValue_not_mem _ (hcv _ (by simp [exportValues]))).1
  have hq_text : '"' ∉ r.text :=
    (cleanValue_not_mem _ (hcv _ (by simp [exportValues]))).1
  have hq_status : '"' ∉ r.status :=
    (cleanValue_not_mem _ (hcv _ (by simp [exportValues]))).1
  have hq_vm : '"' ∉ List.intercalate ['|'] r.verification_methods :=
    (cleanValue_not_mem _ (hcv _ (by simp [exportValues]))).1
  have hq_group : '"' ∉ r.group_id :=
    (cleanValue_not_mem _ (hcv _ (by simp [exportValues]))).1
  have hq_ch : '"' ∉ r.chapter_id.getD [] :=
    (cleanValue_not_mem _ (hcv _ (by simp [exportValues]))).1
  have hgroup : resolveGroup ctx (some 6) (exportValues r) = r.group_id := by
    simp only [resolveGroup, c6]
    rw [if_neg hg_ne, stripEdgeQuotes_of_not_mem _ hq_group]
  have hstatus : jsOr (stripEdgeQuotes (jsOr r.status "Draft".toList)) "Draft".toList
      = r.status := by
    unfold jsOr
    rw [if_neg hst_ne, stripEdgeQuotes_of_not_mem _ hq_status, if_neg hst_ne]
  have hvm_eq : (if List.intercalate ['|'] r.verification_methods = [] then ([] : List Str)
      else ((chSplit '|' (List.intercalate ['|'] r.verification_methods)).map chTrim).filter
        (fun v => !v.isEmpty)) = r.verification_methods := by
    cases hv : r.verification_methods with
    | nil => simp [List.intercalate]
    | cons m rest =>
      have hm_ne : m ≠ [] := (hvm m (hv ▸ List.mem_cons_self m rest)).1
      rw [if_neg (intercalate_ne_nil_of_head_ne_nil '|' m rest hm_ne)]
      rw [chSplit_intercalate '|' (m :: rest) (by simp)
        (fun v hv' => (hvm v (hv ▸ hv')).2.2)]
      rw [map_eq_self_of_mem _ _ (fun v hv' => (hvm v (hv ▸ hv')).2.1)]
      rw [List.filter_eq_self.mpr (fun v hv' => by
        simp only [Bool.not_eq_true', List.isEmpty_eq_false]
        exact (hvm v (hv ▸ hv')).1)]
  simp only [rowPayload, stdColIdx, hcols, c1, c2, c3, c4, c6, c7,
    stripEdgeQuotes_of_not_mem _ hq_title, stripEdgeQuotes_of_not_mem _ hq_text,
    stripEdgeQuotes_of_not_mem _ hq_vm, ht_trim, hgroup]
  rw [if_neg ht_ne, if_neg hg_ne]
  simp only [reimport, Option.some.injEq, Payload.mk.injEq, hstatus, hvm_eq,
    true_and, and_true]
  cases hco : r.chapter_id with
  | none => simp
  | some v =>
    have hv_ne : v ≠ [] := by
      intro hveq
      exact hch (by rw [hco, hveq])
    have hq_v : '"' ∉ v := by
      rw [hco] at hq_ch
      simpa using hq_ch
    simp only [Option.getD_some]
    rw [if_neg hv_ne, stripEdgeQuotes_of_not_mem _ hq_v]
    simp [hv_ne]

lemma exportRow_lineClean (r : Requirement) (hs : exportSafe r = true) :
    lineClean (exportRow r) := by
  have hcv := (exportSafe_spec r hs).1
  rw [exportRow_eq_intercalate r hs]
  constructor
  · intro hmem
    rcases mem_intercalate_sep ',' '\n' _ hmem with hc | ⟨v, hv, hcm⟩
    · exact absurd hc (by decide)
    · exact (cleanValue_not_mem v (hcv v hv)).2.2.1 hcm
  · intro hmem
    rcases mem_intercalate_sep ',' '\r' _ hmem with hc | ⟨v, hv, hcm⟩
    · exact absurd hc (by decide)
    · exact (cleanValue_not_mem v (hcv v hv)).2.2.2 hcm

lemma exportRow_nonblank (r : Requirement) (hs : exportSafe r = true) :
    chTrim (exportRow r) ≠ [] := by
  apply chTrim_ne_nil_of_mem (c := ',') (by decide)
  rw [exportRow_eq_intercalate r hs]
  unfold exportValues
  exact sep_mem_intercalate ',' _ _ _

lemma importLines_csvContent (reqs : List Requirement)
    (h2 : ∀ r ∈ reqs, exportSafe r = true) :
    importLines (csvContent reqs) =
      List.intercalate [','] exportHeaders :: reqs.map exportRow := by
  have hsplit : chSplitLines (List.intercalate ['\n']
        (List.intercalate [','] exportHeaders :: reqs.map exportRow))
      = List.intercalate [','] exportHeaders :: reqs.map exportRow := by
    apply chSplitLines_intercalate
    · simp
    · intro v hv
      rcases List.mem_cons.mp hv with rfl | hmem
      · constructor <;> decide
      · obtain ⟨r, hr, rfl⟩ := List.mem_map.mp hmem
        exact exportRow_lineClean r (h2 r hr)
  unfold importLines csvContent
  rw [hsplit, List.filter_eq_self.mpr]
  intro l hl
  rcases List.mem_cons.mp hl with rfl | hmem
  · decide
  · obtain ⟨r, hr, rfl⟩ := List.mem_map.mp hmem
    simp only [Bool.not_eq_true', List.isEmpty_eq_false]
    exact exportRow_nonblank r (h2 r hr)

lemma foldl_importStep_all_success (create : Payload → Bool) (ctx : ImportCtx)
    (pid : Str) (ci : ColIdx) (g : Requirement → Payload) :
    ∀ (rs : List Requirement) (acc : ImportResult),
      (∀ r ∈ rs, chTrim (exportRow r) ≠ [] ∧
        rowPayload ctx pid ci (exportRow r) = some (g r) ∧ create (g r) = true) →
      (rs.map exportRow).foldl (importStep create ctx pid ci) acc =
        { successCount := acc.successCount + rs.length, failCount := acc.failCount,
          created := acc.created ++ rs.map g } := by
  intro rs
  induction rs with
  | nil =>
    intro acc _
    simp
  | cons r rest ih =>
    intro acc hall
    obtain ⟨hnb, hrp, hc⟩ := hall r (List.mem_cons_self r rest)
    rw [List.map_cons, List.foldl_cons, importStep_success hnb hrp hc]
    rw [ih _ (fun x hx => hall x (List.mem_cons_of_mem r hx))]
    simp only [ImportResult.mk.injEq, List.length_cons, List.map_cons,
      List.append_assoc, List.singleton_append, List.cons_append, true_and, and_true]
    exact ⟨by omega, by simp⟩

/-- C1 (amended): the round trip holds exactly on the codec's safe
fragment.  Exporting any nonempty list of `exportSafe` requirements — no
field value containing a comma, quote, newline or carriage return; trimmed
nonempty title; nonempty status and group id; trimmed, nonempty, pipe-free
verification methods; no empty-string chapter id — and re-importing the
produced text recreates exactly the same requirements: every row succeeds
and each created payload carries the original title, text, status,
verification methods, group id and chapter id (with `project_id` rebound to
the importing project and `parent_ids` empty).  Pipe characters in the
multi-valued fields round-trip; comma, quote and newline do not (see the
counterexample). -/
theorem C1_roundtrip_amended (ctx : ImportCtx) (pid : Str)
    (reqs : List Requirement) (h1 : reqs ≠ [])
    (h2 : ∀ r ∈ reqs, exportSafe r = true) :
    handleImport ctx pid (fun _ => true) (csvContent reqs) =
      Except.ok { successCount := reqs.length, failCount := 0,
                  created := reqs.map (reimport pid) } := by
  cases reqs with
  | nil => exact absurd rfl h1
  | cons r rest =>
    have hlines := importLines_csvContent (r :: rest) h2
    rw [List.map_cons] at hlines
    have hhi : handleImport ctx pid (fun _ => true) (csvContent (r :: rest)) =
        match importIndices
            ((chSplit ',' (List.intercalate [','] exportHeaders)).map chTrim) with
        | none => .error .missingTitle
        | some ci =>
          .ok ((exportRow r :: rest.map exportRow).foldl
            (importStep (fun _ => true) ctx pid ci)
            { successCount := 0, failCount := 0, created := [] }) := by
      unfold handleImport
      rw [hlines]
    have hidx : importIndices
        ((chSplit ',' (List.intercalate [','] exportHeaders)).map chTrim) =
        some stdColIdx := by decide
    have hall : ∀ x ∈ r :: rest, chTrim (exportRow x) ≠ [] ∧
        rowPayload ctx pid stdColIdx (exportRow x) = some (reimport pid x) ∧
        (fun _ => true) (reimport pid x) = true :=
      fun x hx =>
        ⟨exportRow_nonblank x (h2 x hx), rowPayload_exportRow ctx pid x (h2 x hx), rfl⟩
    rw [hhi, hidx]
    have hfold := foldl_importStep_all_success (fun _ => true) ctx pid stdColIdx
      (reimport pid) (r :: rest)
      { successCount := 0, failCount := 0, created := [] } hall
    rw [List.map_cons] at hfold
    show Except.ok ((exportRow r :: rest.map exportRow).foldl
        (importStep (fun _ => true) ctx pid stdColIdx)
        { successCount := 0, failCount := 0, created := [] }) =
      Except.ok { successCount := (r :: rest).length, failCount := 0,
                  created := (r :: rest).map (reimport pid) }
    rw [hfold]
    simp

/-- C1 counterexample: for the concrete requirement whose title is `a,b`,
parsing the exported text does not yield the requirement back — the
re-imported title is `a` — so the round trip fails as soon as a field
contains the delimiter, even though export escaped it correctly. -/
theorem C1_roundtrip_counterexample :
    (handleImport { activeGroupId := [], firstGroupId := [] } "p".toList
        (fun _ => true) (csvContent [cexRequirement])).map
      (fun res => res.created.map Payload.title) = Except.ok [['a']] ∧
    cexRequirement.title = "a,b".toList ∧ ¬ (['a'] = "a,b".toList) := by
  refine ⟨by decide, rfl, by decide⟩

/-- Witness for C1: a concrete safe requirement round-trips. -/
theorem C1_roundtrip_amended_witness :
    ([witRequirement] : List Requirement) ≠ [] ∧
    (∀ r ∈ ([witRequirement] : List Requirement), exportSafe r = true) ∧
    handleImport { activeGroupId := [], firstGroupId := [] } "p".toList
        (fun _ => true) (csvContent [witRequirement]) =
      Except.ok { successCount := [witRequirement].length, failCount := 0,
                  created := [witRequirement].map (reimport "p".toList) } :=
  ⟨by decide, by decide,
    C1_roundtrip_amended { activeGroupId := [], firstGroupId := [] } "p".toList
      [witRequirement] (by decide) (by decide)⟩

/-- Witness for C2: a concrete symmetric store stays symmetric across a
concrete mutation sequence. -/
theorem C2_graph_symmetry_witness :
    EdgeSymmetric exStore ∧ EdgeSymmetric (applyOps exStore exOps) :=
  ⟨by decide, C2_graph_symmetry_invariant exStore exOps (by decide)⟩

/-- Witness for C3: a CSV with three valid rows and one row missing its
title imports as three successes and one failure. -/
theorem C3_import_accounting_witness :
    handleImport { activeGroupId := "g".toList, firstGroupId := [] } "p".toList
        (fun _ => true) c3Text = Except.ok c3Result ∧
    (c3Result.created.length = c3Result.successCount ∧
     c3Result.successCount + c3Result.failCount = (importLines c3Text).length - 1) :=
  ⟨by decide,
    C3_import_partial_failure_accounting { activeGroupId := "g".toList, firstGroupId := [] }
      "p".toList (fun _ => true) c3Text c3Result (by decide)⟩

/-- Witness for C4: a header without `title` fails with the single
missing-title error. -/
theorem C4_required_title_witness :
    2 ≤ (importLines c4Text).length ∧
    handleImport { activeGroupId := "g".toList, firstGroupId := [] } "p".toList
        (fun _ => true) c4Text = Except.error ImportError.missingTitle :=
  ⟨by decide,
    (C4_required_title_column { activeGroupId := "g".toList, firstGroupId := [] }
      "p".toList (fun _ => true) c4Text (by decide)).1 (by decide)⟩

/-- Witness for C5: the export of a concrete requirement starts with the
fixed header and pipe-joins the multi-valued fields. -/
theorem C5_export_format_witness :
    ([witRequirement] : List Requirement) ≠ [] ∧
    (handleExport [witRequirement] = some (csvContent [witRequirement]) ∧
     (chSplitLines (csvContent [witRequirement])).headD [] =
       "req_id,title,text,status,verification_methods,project_id,group_id,chapter_id,parent_ids,child_ids".toList ∧
     ∀ r ∈ ([witRequirement] : List Requirement), exportRow r =
       List.intercalate [','] (List.map escapeCsv
         [r.req_id, r.title, r.text, r.status,
          List.intercalate ['|'] r.verification_methods,
          r.project_id, r.group_id, r.chapter_id.getD [],
          List.intercalate ['|'] r.parent_ids,
          List.intercalate ['|'] r.child_ids])) :=
  ⟨by decide, C5_export_format [witRequirement] (by decide)⟩

/-- Witness for C6: with the `group_id` column present and the cell
nonempty, the resolved group id is the unquoted cell. -/
theorem C6_group_resolution_witness :
    resolveGroup c6Ctx c6Ci.idxGroup (chSplit ',' c6Line) =
      stripEdgeQuotes ((chSplit ',' c6Line).getD 2 []) :=
  (C6_import_group_resolution c6Ctx "p".toList c6Ci c6Line).2.2.1 2 rfl (by decide)

/-- Witness for C7: the payload built from a concrete exported row has
empty `parent_ids` although the row's `parent_ids` cell is nonempty. -/
theorem C7_no_edges_witness :
    (reimport "p".toList witRequirement).parent_ids = [] :=
  C7_import_never_restores_edges.1 { activeGroupId := [], firstGroupId := [] }
    "p".toList stdColIdx (exportRow witRequirement)
    (reimport "p".toList witRequirement) (by decide)

/-- Witness for C8: with one resolvable and one stale parent id, the
parents query returns exactly the resolvable record. -/
theorem C8_neighbor_witness :
    parentDetails c8Fetch ["x".toList, "missing".toList] ["y".toList] =
      (["x".toList, "missing".toList]).filterMap c8Fetch :=
  (C8_neighbor_resolution_tolerance c8Fetch
    ["x".toList, "missing".toList] ["y".toList]).1

/-- Witness for C10: the one rendered edge of a concrete filtered graph
has both endpoints among the rendered nodes. -/
theorem C10_rendered_graph_witness :
    c10Edge ∈ graphEdges c10Groups c10Reqs ∧
    (c10Edge.source ∈ graphNodeIds c10Groups c10Reqs ∧
     c10Edge.target ∈ graphNodeIds c10Groups c10Reqs) :=
  ⟨by decide, C10_rendered_graph_well_formed c10Groups c10Reqs c10Edge (by decide)⟩

end Rmt
